import Mathlib

/-!
Verification of the https-cert/deploy agent against its specification.

The development shallowly embeds the Go sources of the agent:
the ACME challenge cache (`internal/server/http_server.go`), the
challenge message handlers (`internal/client/client.go` and the
WebSocket variant), the reconnect backoff loop
(`internal/client/client.go`), the zip extraction guard
(`internal/client/deploys`), the certificate move/copy installers
(`deploys/nginx.go`, `deploys/rustfs.go`), the message handlers that
produce reply frames, the Aliyun ESA fallback-name builder, and the
stable client-id derivation (`internal/system/info.go`).

Go maps are embedded as functions into `Option`; `time.Time` is an
integer number of seconds (`time.After` is `>`); fallible operations
return explicit results; the outcomes of operating-system and network
calls are supplied as explicit environment records so that every
control-flow path of the source is represented.
-/

/-! ## ChallengeCache (internal/server/http_server.go) -/

/-- One entry of the challenge cache: `challengeEntry` in the source. -/
structure ChallengeEntry where
  response : String
  expiresAt : Int
  domain : String
deriving DecidableEq

/-- The challenge cache: two maps guarded by one mutex in the source. -/
structure ChallengeCache where
  challenges : String → Option ChallengeEntry
  tokenDomains : String → Option String

/-- The freshly constructed cache (`NewHTTPServer` makes both maps empty). -/
def ChallengeCache.empty : ChallengeCache :=
  ⟨fun _ => none, fun _ => none⟩

/-- `ChallengeCache.Set`: insert or overwrite under `token`, with
`expiresAt = now + ttl`, updating both maps. -/
def ChallengeCache.set (c : ChallengeCache) (now : Int)
    (token response domain : String) (ttl : Int) : ChallengeCache :=
  { challenges := fun t =>
      if t = token then some ⟨response, now + ttl, domain⟩ else c.challenges t
    tokenDomains := fun t =>
      if t = token then some domain else c.tokenDomains t }

/-- `ChallengeCache.Get`: read-only lookup.  The method holds only a read
lock, so the cache it leaves behind is returned unchanged alongside the
`(response, found)` pair, mirroring the receiver after the call. -/
def ChallengeCache.get (c : ChallengeCache) (now : Int) (token : String) :
    (String × Bool) × ChallengeCache :=
  match c.challenges token with
  | none => (("", false), c)
  | some entry =>
    if now > entry.expiresAt then (("", false), c)
    else ((entry.response, true), c)

/-- `ChallengeCache.Delete`: unconditional removal from both maps. -/
def ChallengeCache.delete (c : ChallengeCache) (token : String) : ChallengeCache :=
  { challenges := fun t => if t = token then none else c.challenges t
    tokenDomains := fun t => if t = token then none else c.tokenDomains t }

/-- `ChallengeCache.CleanExpired`: drop every entry with `now > expiresAt`
from both maps; tokens absent from `challenges` are left untouched in
`tokenDomains`, exactly as the range loop of the source does. -/
def ChallengeCache.cleanExpired (c : ChallengeCache) (now : Int) : ChallengeCache :=
  { challenges := fun t =>
      match c.challenges t with
      | some entry => if now > entry.expiresAt then none else some entry
      | none => none
    tokenDomains := fun t =>
      match c.challenges t with
      | some entry => if now > entry.expiresAt then none else c.tokenDomains t
      | none => c.tokenDomains t }

/-! ## Challenge message handlers (client.go / ws_client part) -/

/-- `Client.handleChallenge`: ignores the message when the HTTP server is
absent or the token is empty; deletes on empty response; otherwise caches
the challenge with the 10-minute (600 s) ttl of `SetChallenge`. -/
def handleChallenge (hasServer : Bool) (c : ChallengeCache) (now : Int)
    (challengeToken challengeResponse domain : String) : ChallengeCache :=
  if hasServer = false then c
  else if challengeToken = "" then c
  else if challengeResponse = "" then c.delete challengeToken
  else c.set now challengeToken challengeResponse domain 600

/-- `WSClient.handleChallenge`: the WebSocket variant; identical control
flow (the two differ only in logging). -/
def wsHandleChallenge (hasServer : Bool) (c : ChallengeCache) (now : Int)
    (challengeToken challengeResponse domain : String) : ChallengeCache :=
  if hasServer = false then c
  else if challengeToken = "" then c
  else if challengeResponse = "" then c.delete challengeToken
  else c.set now challengeToken challengeResponse domain 600

/-! ## Cache operation sequences, for the key-set invariant -/

/-- One mutating cache operation. -/
inductive CacheOp
  | setOp (now : Int) (token response domain : String) (ttl : Int)
  | deleteOp (token : String)
  | cleanOp (now : Int)

/-- Apply one operation to the cache. -/
def applyCacheOp (c : ChallengeCache) : CacheOp → ChallengeCache
  | CacheOp.setOp now token response domain ttl => c.set now token response domain ttl
  | CacheOp.deleteOp token => c.delete token
  | CacheOp.cleanOp now => c.cleanExpired now

/-- Apply a sequence of operations starting from the empty cache. -/
def applyCacheOps (ops : List CacheOp) : ChallengeCache :=
  ops.foldl applyCacheOp ChallengeCache.empty

/-- The two internal maps have the same key set. -/
def sameKeySets (c : ChallengeCache) : Prop :=
  ∀ t, (c.challenges t).isSome ↔ (c.tokenDomains t).isSome

theorem sameKeySets_empty : sameKeySets ChallengeCache.empty := by
  intro t
  simp [ChallengeCache.empty]

theorem sameKeySets_applyCacheOp (c : ChallengeCache) (op : CacheOp)
    (h : sameKeySets c) : sameKeySets (applyCacheOp c op) := by
  cases op with
  | setOp now token response domain ttl =>
    intro t
    by_cases ht : t = token <;>
      simp [applyCacheOp, ChallengeCache.set, ht, h t]
  | deleteOp token =>
    intro t
    by_cases ht : t = token <;>
      simp [applyCacheOp, ChallengeCache.delete, ht, h t]
  | cleanOp now =>
    intro t
    have htk := h t
    cases hc : c.challenges t with
    | none =>
      simp [applyCacheOp, ChallengeCache.cleanExpired, hc]
      simp [hc] at htk
      cases hd : c.tokenDomains t with
      | none => simp
      | some d => simp [hd] at htk
    | some entry =>
      by_cases hexp : now > entry.expiresAt <;>
        simp [applyCacheOp, ChallengeCache.cleanExpired, hc, hexp]
      simp [hc] at htk
      exact htk

/-- C3: `Get(t)` returns `(response, true)` exactly when an entry exists
whose expiry has not passed; otherwise `("", false)`; after `Set` and
before expiry the set response is returned; after `Delete` or after
expiry `("", false)` is returned; and `Get` leaves the cache unchanged. -/
theorem challengeCache_get_spec :
    (∀ (c : ChallengeCache) (now : Int) (t : String),
      ((c.get now t).1.2 = true ↔
        ∃ e, c.challenges t = some e ∧ now ≤ e.expiresAt)
      ∧ (∀ e, c.challenges t = some e → now ≤ e.expiresAt →
          (c.get now t).1 = (e.response, true))
      ∧ ((c.get now t).1.2 = false → (c.get now t).1 = ("", false))
      ∧ (c.get now t).2 = c)
    ∧ (∀ (c : ChallengeCache) (now now2 : Int) (t r d : String) (ttl : Int),
        now2 ≤ now + ttl →
        ((c.set now t r d ttl).get now2 t).1 = (r, true))
    ∧ (∀ (c : ChallengeCache) (now : Int) (t : String),
        ((c.delete t).get now t).1 = ("", false))
    ∧ (∀ (c : ChallengeCache) (now : Int) (t : String) (e : ChallengeEntry),
        c.challenges t = some e → now > e.expiresAt →
        (c.get now t).1 = ("", false)) := by
  refine ⟨?_, ?_, ?_, ?_⟩
  · intro c now t
    refine ⟨?_, ?_, ?_, ?_⟩
    · constructor
      · intro hfound
        cases hc : c.challenges t with
        | none => simp [ChallengeCache.get, hc] at hfound
        | some e =>
          by_cases hexp : now > e.expiresAt
          · simp [ChallengeCache.get, hc, hexp] at hfound
          · exact ⟨e, rfl, not_lt.mp hexp⟩
      · rintro ⟨e, hc, hle⟩
        simp [ChallengeCache.get, hc, not_lt.mpr hle]
    · intro e hc hle
      simp [ChallengeCache.get, hc, not_lt.mpr hle]
    · intro hfalse
      cases hc : c.challenges t with
      | none => simp [ChallengeCache.get, hc]
      | some e =>
        by_cases hexp : now > e.expiresAt
        · simp [ChallengeCache.get, hc, hexp]
        · simp [ChallengeCache.get, hc, hexp] at hfalse ⊢
    · cases hc : c.challenges t with
      | none => simp [ChallengeCache.get, hc]
      | some e =>
        by_cases hexp : now > e.expiresAt <;> simp [ChallengeCache.get, hc, hexp]
  · intro c now now2 t r d ttl hle
    simp [ChallengeCache.get, ChallengeCache.set, not_lt.mpr hle]
  · intro c now t
    simp [ChallengeCache.get, ChallengeCache.delete]
  · intro c now t e hc hexp
    simp [ChallengeCache.get, hc, hexp]

theorem challengeCache_get_spec_witness :
    (5 : Int) ≤ 0 + 600 ∧
    ((ChallengeCache.empty.set 0 "tok" "resp" "dom" 600).get 5 "tok").1 =
      ("resp", true) :=
  ⟨by norm_num,
    challengeCache_get_spec.2.1 ChallengeCache.empty 0 5 "tok" "resp" "dom" 600
      (by norm_num)⟩

/-- C9: an inbound CHALLENGE whose token is empty leaves the challenge
store untouched in both the connect-rpc and the WebSocket handlers,
whatever the response and domain carry. -/
theorem handleChallenge_empty_token_no_change
    (hasServer : Bool) (c : ChallengeCache) (now : Int)
    (challengeResponse domain : String) :
    handleChallenge hasServer c now "" challengeResponse domain = c ∧
    wsHandleChallenge hasServer c now "" challengeResponse domain = c := by
  constructor <;> cases hasServer <;> simp [handleChallenge, wsHandleChallenge]

/-- C10: starting from the empty cache, any sequence of `Set`, `Delete`
and `CleanExpired` operations yields a cache whose two internal maps
have exactly the same key set. -/
theorem challengeCache_same_key_sets (ops : List CacheOp) :
    sameKeySets (applyCacheOps ops) := by
  have hfold : ∀ (l : List CacheOp) (c : ChallengeCache),
      sameKeySets c → sameKeySets (l.foldl applyCacheOp c) := by
    intro l
    induction l with
    | nil => intro c hc; exact hc
    | cons op rest ih =>
      intro c hc
      exact ih (applyCacheOp c op) (sameKeySets_applyCacheOp c op hc)
  exact hfold ops ChallengeCache.empty sameKeySets_empty

/-! ## Reconnect backoff (Client.StartConnectNotify, client.go) -/

/-- `minReconnectDelay` in seconds. -/
def minReconnectDelay : Nat := 1

/-- `maxReconnectDelay` in seconds. -/
def maxReconnectDelay : Nat := 30

/-- `fastReconnectAttempt`. -/
def fastReconnectAttempt : Nat := 3

/-- The loop-local state of `StartConnectNotify`. -/
structure ConnState where
  consecutiveFailures : Nat
  reconnectDelay : Nat
deriving DecidableEq

/-- State at loop entry: `reconnectDelay := minReconnectDelay`,
`consecutiveFailures := 0`. -/
def connStart : ConnState := ⟨0, minReconnectDelay⟩

/-- Effect of one connect (or register-send) failure: increment the
failure count, then keep `minReconnectDelay` while the count is within
the fast attempts, otherwise double the previous delay capped at
`maxReconnectDelay`; the resulting delay is what the loop sleeps. -/
def onConnectFailure (s : ConnState) : ConnState :=
  let cf := s.consecutiveFailures + 1
  let d :=
    if cf ≤ fastReconnectAttempt then minReconnectDelay
    else min (s.reconnectDelay * 2) maxReconnectDelay
  ⟨cf, d⟩

/-- Effect of a successful registration: both the failure count and the
delay are reset. -/
def onRegisterSuccess (_ : ConnState) : ConnState := ⟨0, minReconnectDelay⟩

/-- State after `n` consecutive failures from the reset state. -/
def stateAfterFailures : Nat → ConnState
  | 0 => connStart
  | n + 1 => onConnectFailure (stateAfterFailures n)

theorem stateAfterFailures_count (n : Nat) :
    (stateAfterFailures n).consecutiveFailures = n := by
  induction n with
  | zero => rfl
  | succ n ih => simp [stateAfterFailures, onConnectFailure, ih]

theorem stateAfterFailures_delay_bounds (n : Nat) (h : 4 ≤ n) :
    2 ≤ (stateAfterFailures n).reconnectDelay ∧
      (stateAfterFailures n).reconnectDelay ≤ 30 := by
  induction n with
  | zero => omega
  | succ n ih =>
    by_cases h4 : 4 ≤ n
    · obtain ⟨hlo, hhi⟩ := ih h4
      have hcf : (stateAfterFailures n).consecutiveFailures = n :=
        stateAfterFailures_count n
      have hgt : ¬ (n + 1 ≤ fastReconnectAttempt) := by
        simp [fastReconnectAttempt]; omega
      simp [stateAfterFailures, onConnectFailure, hcf, hgt,
        minReconnectDelay, maxReconnectDelay]
      omega
    · have hn : n = 3 := by omega
      subst hn
      simp [stateAfterFailures, onConnectFailure, connStart,
        fastReconnectAttempt, minReconnectDelay, maxReconnectDelay]

/-- C5: the delay slept after the n-th consecutive failure is 1 s for
n ≤ 3; each further failure doubles the previous delay capped at 30 s;
hence from the fourth failure on the slept delay lies between 2 s and
30 s; and after a successful registration the state resets so that the
next failure sleeps 1 s again. -/
theorem reconnect_backoff_spec :
    (∀ n, 1 ≤ n → n ≤ 3 → (stateAfterFailures n).reconnectDelay = 1)
    ∧ (∀ n, 3 ≤ n →
        (stateAfterFailures (n + 1)).reconnectDelay =
          min ((stateAfterFailures n).reconnectDelay * 2) 30)
    ∧ (∀ n, 4 ≤ n →
        2 ≤ (stateAfterFailures n).reconnectDelay ∧
          (stateAfterFailures n).reconnectDelay ≤ 30)
    ∧ (∀ s, (onConnectFailure (onRegisterSuccess s)).reconnectDelay = 1) := by
  refine ⟨?_, ?_, stateAfterFailures_delay_bounds, ?_⟩
  · intro n h1 h3
    interval_cases n <;> rfl
  · intro n h3
    have hcf : (stateAfterFailures n).consecutiveFailures = n :=
      stateAfterFailures_count n
    have hgt : ¬ (n + 1 ≤ fastReconnectAttempt) := by
      simp [fastReconnectAttempt]; omega
    simp [stateAfterFailures, onConnectFailure, hcf, hgt, maxReconnectDelay]
  · intro s
    rfl

theorem reconnect_backoff_spec_witness :
    ((1 : Nat) ≤ 3 ∧ (3 : Nat) ≤ 3 ∧ (stateAfterFailures 3).reconnectDelay = 1)
    ∧ ((3 : Nat) ≤ 3 ∧
        (stateAfterFailures 4).reconnectDelay =
          min ((stateAfterFailures 3).reconnectDelay * 2) 30)
    ∧ ((4 : Nat) ≤ 5 ∧ 2 ≤ (stateAfterFailures 5).reconnectDelay ∧
        (stateAfterFailures 5).reconnectDelay ≤ 30) :=
  ⟨⟨by decide, by decide, reconnect_backoff_spec.1 3 (by decide) (by decide)⟩,
    ⟨by decide, reconnect_backoff_spec.2.1 3 (by decide)⟩,
    ⟨by decide, (reconnect_backoff_spec.2.2.1 5 (by decide)).1,
      (reconnect_backoff_spec.2.2.1 5 (by decide)).2⟩⟩

/-! ## Zip extraction guard (deploys part: ExtractZip / extractZipFile)

Paths are handled as slash-separated component lists.
`filepath.Join(dir, name)` is `Clean(dir + "/" + name)`, and `Clean` on a
relative path processes components left to right, dropping empty and `.`
components and resolving `..` lexically; `filepath.Rel(base, targ)`
strips the longest common component prefix and prepends one `..` per
remaining base component.  Both are reproduced here on component lists;
a component list renders to the string `filepath` functions return via
`compsToPath` (the empty list renders to `.`). -/

/-- Split a character list at every occurrence of `sep`. -/
def splitCharsOn (sep : Char) : List Char → List (List Char)
  | [] => [[]]
  | c :: rest =>
    match splitCharsOn sep rest with
    | [] => [[]]
    | g :: gs => if c = sep then [] :: g :: gs else (c :: g) :: gs

/-- Split a slash-separated path into raw components. -/
def splitPath (s : String) : List String :=
  (splitCharsOn '/' s.data).map String.mk

/-- One step of lexical path cleaning. -/
def cleanStep (acc : List String) (c : String) : List String :=
  if c = "" ∨ c = "." then acc
  else if c = ".." then
    match acc.getLast? with
    | some prev => if prev = ".." then acc ++ [".."] else acc.dropLast
    | none => [".."]
  else acc ++ [c]

/-- Lexical cleaning of a relative path, as `filepath.Clean` does. -/
def cleanComps (cs : List String) : List String := cs.foldl cleanStep []

/-- Length of the longest common component prefix. -/
def commonPrefixLen : List String → List String → Nat
  | a :: as, b :: bs => if a = b then commonPrefixLen as bs + 1 else 0
  | _, _ => 0

/-- `filepath.Rel(base, targ)` on cleaned component lists. -/
def relComps (base targ : List String) : List String :=
  List.replicate (base.length - commonPrefixLen base targ) ".."
    ++ targ.drop (commonPrefixLen base targ)

/-- Render a component list back to the string `filepath` returns. -/
def compsToPath : List String → String
  | [] => "."
  | c :: cs => cs.foldl (fun acc x => acc ++ "/" ++ x) c

/-- `strings.HasPrefix`. -/
def strHasPref (s pre : String) : Bool := pre.data.isPrefixOf s.data

/-- Occurrence of `pat` as a contiguous run inside a character list. -/
def charsContain (pat : List Char) : List Char → Bool
  | [] => pat.isPrefixOf []
  | c :: rest => pat.isPrefixOf (c :: rest) || charsContain pat rest

/-- `strings.Contains`. -/
def strContainsSub (s pat : String) : Bool := charsContain pat.data s.data

theorem commonPrefixLen_le_length (a b : List String) :
    commonPrefixLen a b ≤ a.length := by
  induction a generalizing b with
  | nil => simp [commonPrefixLen]
  | cons x as ih =>
    cases b with
    | nil => simp [commonPrefixLen]
    | cons y bs =>
      by_cases hxy : x = y <;> simp [commonPrefixLen, hxy]
      exact ih bs

theorem commonPrefixLen_eq_length_pref (a b : List String)
    (h : commonPrefixLen a b = a.length) : a <+: b := by
  induction a generalizing b with
  | nil => exact List.nil_prefix
  | cons x as ih =>
    cases b with
    | nil => simp [commonPrefixLen] at h
    | cons y bs =>
      by_cases hxy : x = y
      · subst hxy
        simp [commonPrefixLen] at h
        exact List.cons_prefix_cons.mpr ⟨rfl, ih bs h⟩
      · simp [commonPrefixLen, hxy] at h

theorem foldlSlash_data_pref (cs : List String) (acc : String) :
    acc.data <+: (cs.foldl (fun a x => a ++ "/" ++ x) acc).data := by
  induction cs generalizing acc with
  | nil => exact List.prefix_refl _
  | cons c cs ih =>
    have hstep : acc.data <+: (acc ++ "/" ++ c).data := by
      simp [String.data_append]
    exact hstep.trans (ih (acc ++ "/" ++ c))

theorem compsToPath_dotdot_head (rest : List String) :
    strHasPref (compsToPath (".." :: rest)) ".." = true := by
  have hp : (String.mk ['.', '.']).data <+: (compsToPath (".." :: rest)).data := by
    have := foldlSlash_data_pref rest ".."
    simpa [compsToPath] using this
  simpa [strHasPref, List.isPrefixOf_iff_prefix] using hp

theorem rel_guard_passes_pref (base targ : List String)
    (h : strHasPref (compsToPath (relComps base targ)) ".." = false) :
    base <+: targ := by
  rcases Nat.eq_zero_or_pos (base.length - commonPrefixLen base targ) with hz | hpos
  · have hle := commonPrefixLen_le_length base targ
    have : commonPrefixLen base targ = base.length := by omega
    exact commonPrefixLen_eq_length_pref base targ this
  · exfalso
    obtain ⟨m, hm⟩ : ∃ m, base.length - commonPrefixLen base targ = m + 1 :=
      ⟨base.length - commonPrefixLen base targ - 1, by omega⟩
    have hrel : relComps base targ =
        ".." :: (List.replicate m ".." ++ targ.drop (commonPrefixLen base targ)) := by
      simp [relComps, hm, List.replicate_succ]
    rw [hrel, compsToPath_dotdot_head] at h
    simp at h

/-- One archive member: name, recorded mode bits, directory flag. -/
structure ZipEntry where
  name : String
  mode : Nat
  isDir : Bool
deriving DecidableEq

/-- A filesystem object created by extraction. -/
structure CreatedEntry where
  pathComps : List String
  mode : Nat
  isDir : Bool
deriving DecidableEq

/-- `extractZipFile`: join the entry name under the extraction root,
clean it, reject it when the path relative to the root begins with `..`
or contains `../`; otherwise create the object, restoring the recorded
mode with `os.Chmod` (`os.MkdirAll(mode)` for directories). -/
def extractZipFile (extractDir : List String) (e : ZipEntry) :
    Except String CreatedEntry :=
  let targ := cleanComps (extractDir ++ splitPath e.name)
  let rel := compsToPath (relComps extractDir targ)
  if strHasPref rel ".." || strContainsSub rel "../" then
    Except.error ("不安全的文件路径: " ++ e.name)
  else
    Except.ok ⟨targ, e.mode, e.isDir⟩

/-- `ExtractZip`: extract members in order, stopping at the first error;
the first component collects the objects created so far, the second the
error that stopped the loop, if any. -/
def extractZipRun (extractDir : List String) :
    List ZipEntry → List CreatedEntry × Option String
  | [] => ([], none)
  | e :: es =>
    match extractZipFile extractDir e with
    | Except.error msg => ([], some msg)
    | Except.ok c =>
      let r := extractZipRun extractDir es
      (c :: r.1, r.2)

/-- C4: entries whose cleaned path relative to the extraction root
begins with `..` or contains `../` are rejected with an error; every
object a successful member extraction creates lies under the extraction
root, with the member's recorded mode and kind; and across a whole
archive run every created object lies under the root and carries the
mode of one of the members — no file is created outside the root. -/
theorem extractZip_traversal_guard (extractDir : List String) (e : ZipEntry)
    (entries : List ZipEntry) :
    (strHasPref
        (compsToPath (relComps extractDir
          (cleanComps (extractDir ++ splitPath e.name)))) ".." = true ∨
      strContainsSub
        (compsToPath (relComps extractDir
          (cleanComps (extractDir ++ splitPath e.name)))) "../" = true →
      ∃ msg, extractZipFile extractDir e = Except.error msg)
    ∧ (∀ c, extractZipFile extractDir e = Except.ok c →
        extractDir <+: c.pathComps ∧ c.mode = e.mode ∧ c.isDir = e.isDir)
    ∧ (∀ c ∈ (extractZipRun extractDir entries).1,
        extractDir <+: c.pathComps ∧ ∃ e2 ∈ entries, c.mode = e2.mode) := by
  have hok : ∀ (e1 : ZipEntry) (c : CreatedEntry),
      extractZipFile extractDir e1 = Except.ok c →
      extractDir <+: c.pathComps ∧ c.mode = e1.mode ∧ c.isDir = e1.isDir := by
    intro e1 c hc
    unfold extractZipFile at hc
    by_cases hguard : strHasPref
        (compsToPath (relComps extractDir
          (cleanComps (extractDir ++ splitPath e1.name)))) ".."
        || strContainsSub
          (compsToPath (relComps extractDir
            (cleanComps (extractDir ++ splitPath e1.name)))) "../"
    · simp [hguard] at hc
    · simp [hguard] at hc
      have hpref : strHasPref
          (compsToPath (relComps extractDir
            (cleanComps (extractDir ++ splitPath e1.name)))) ".." = false := by
        cases hbo : strHasPref
            (compsToPath (relComps extractDir
              (cleanComps (extractDir ++ splitPath e1.name)))) ".."
        · rfl
        · simp [hbo] at hguard
      subst hc
      exact ⟨rel_guard_passes_pref _ _ hpref, rfl, rfl⟩
  refine ⟨?_, hok e, ?_⟩
  · intro hbad
    unfold extractZipFile
    rcases hbad with hb | hb <;> simp [hb]
  · induction entries with
    | nil => intro c hc; simp [extractZipRun] at hc
    | cons e1 es ih =>
      intro c hc
      cases hx : extractZipFile extractDir e1 with
      | error msg => simp [extractZipRun, hx] at hc
      | ok c1 =>
        simp [extractZipRun, hx] at hc
        rcases hc with hc | hc
        · rw [hc]
          obtain ⟨h1, h2, _⟩ := hok e1 c1 hx
          exact ⟨h1, e1, by simp, h2⟩
        · obtain ⟨h1, e2, he2, h2⟩ := ih c hc
          exact ⟨h1, e2, by simp [he2], h2⟩

theorem extractZip_traversal_guard_witness :
    (∃ msg, extractZipFile ["certs", "example.com"]
        ⟨"../../etc/passwd", 420, false⟩ = Except.error msg)
    ∧ (["certs", "example.com"] <+:
          (["certs", "example.com", "cert.pem"] : List String)
        ∧ (420 : Nat) = 420 ∧ false = false) :=
  ⟨(extractZip_traversal_guard ["certs", "example.com"]
      ⟨"../../etc/passwd", 420, false⟩ []).1 (Or.inl (by decide)),
    (extractZip_traversal_guard ["certs", "example.com"]
      ⟨"cert.pem", 420, false⟩ []).2.1
      ⟨["certs", "example.com", "cert.pem"], 420, false⟩ rfl⟩

/-! ## Certificate installers (deploys/nginx.go moveCertificates,
deploys/rustfs.go DeployToRustFS)

The state tracked is the contents found at the target directory
(`{sslPath}/{folderName}` resp. `{rustFSPath}/{safeDomain}`); the
outcome of every fallible operating-system call is supplied in an
environment record, one field per call site in the source. -/

/-- What a directory holds in the move model. -/
inductive DirContents
  | oldCerts
  | newCerts
  | halfCopied
deriving DecidableEq

/-- Outcome of `os.Rename(sourceDir, targetDir)`. -/
inductive RenameOutcome
  | renamed
  | exdev
  | failedOther
deriving DecidableEq

/-- Outcomes of the operating-system calls made by `moveCertificates`. -/
structure MoveEnv where
  mkdirSslPathOk : Bool
  removeTargetOk : Bool
  rename : RenameOutcome
  copyDirOk : Bool
  removeSourceOk : Bool
deriving DecidableEq

/-- Directory state threaded through `moveCertificates`. -/
structure MoveState where
  target : Option DirContents
  source : Option DirContents
deriving DecidableEq

/-- The rename-or-copy stage of `moveCertificates` (after the target has
been cleared): `os.Rename`, with a recursive copy plus source removal as
the cross-device fallback, and `halfCopied` left behind when the copy
fails midway. -/
def moveInstall (env : MoveEnv) (s : MoveState) : MoveState × Option String :=
  match env.rename with
  | RenameOutcome.renamed => (⟨s.source, none⟩, none)
  | RenameOutcome.failedOther => (s, some "移动证书文件夹失败")
  | RenameOutcome.exdev =>
    if env.copyDirOk = false then
      (⟨some DirContents.halfCopied, s.source⟩, some "复制证书文件夹失败")
    else if env.removeSourceOk = false then
      (⟨s.source, s.source⟩, some "清理解压目录失败")
    else
      (⟨s.source, none⟩, none)

/-- `moveCertificates`: ensure the ssl directory exists, delete the
existing target directory outright, then move (or copy) the freshly
extracted directory into place. -/
def moveCertificates (env : MoveEnv) (s : MoveState) : MoveState × Option String :=
  if env.mkdirSslPathOk = false then (s, some "创建SSL目录失败")
  else
    match s.target with
    | some _ =>
      if env.removeTargetOk = false then (s, some "删除现有目录失败")
      else moveInstall env ⟨none, s.source⟩
    | none => moveInstall env s

/-- What the RustFS target directory holds. -/
inductive RustFSContents
  | oldCerts
  | emptyDir
  | certOnly
  | certAndKey
deriving DecidableEq

/-- Outcomes of the operating-system calls made by `DeployToRustFS`. -/
structure RustFSEnv where
  removeTargetOk : Bool
  mkdirTargetOk : Bool
  copyCertOk : Bool
  copyKeyOk : Bool
deriving DecidableEq

/-- `DeployToRustFS`: delete an existing target directory, recreate it,
then copy `cert.pem` (mode 0644) and `privateKey.key` (mode 0600) into
it one after the other. -/
def deployToRustFS (env : RustFSEnv) (target : Option RustFSContents) :
    Option RustFSContents × Option String :=
  match target with
  | some _ =>
    if env.removeTargetOk = false then (target, some "删除现有RustFS证书目录失败")
    else deployToRustFSInstall env
  | none => deployToRustFSInstall env
where
  deployToRustFSInstall (env : RustFSEnv) : Option RustFSContents × Option String :=
    if env.mkdirTargetOk = false then (none, some "创建RustFS证书目录失败")
    else if env.copyCertOk = false then
      (some RustFSContents.emptyDir, some "复制证书文件失败")
    else if env.copyKeyOk = false then
      (some RustFSContents.certOnly, some "复制私钥文件失败")
    else (some RustFSContents.certAndKey, none)

/-- C2 counterexample: with the old certificates installed and a fresh
extraction available, a rename failure that is not cross-device makes
`moveCertificates` report an error while the target directory — whose
previous contents were deleted up front — is left empty: the previous
contents are not intact. -/
theorem moveCertificates_loses_old_on_failure :
    (moveCertificates
        ⟨true, true, RenameOutcome.failedOther, true, true⟩
        ⟨some DirContents.oldCerts, some DirContents.newCerts⟩).2.isSome = true
    ∧ (moveCertificates
        ⟨true, true, RenameOutcome.failedOther, true, true⟩
        ⟨some DirContents.oldCerts, some DirContents.newCerts⟩).1.target
      ≠ some DirContents.oldCerts := by
  constructor
  · rfl
  · decide

/-- C2 amended: both installers delete the existing target before
installing, so the old contents survive a failure only when that
failure happens before the deletion (the ssl-path `MkdirAll` or the
`RemoveAll` itself); an error raised by any later step leaves the
target absent, half copied, empty, or already holding the new
certificates — and `DeployToRustFS` can leave a target containing the
certificate but not the key.  On success both targets hold the fully
installed new artifact. -/
theorem moveCertificates_delete_first_spec (env : MoveEnv) (renv : RustFSEnv)
    (target0 : Option RustFSContents) :
    (∀ out,
      moveCertificates env ⟨some DirContents.oldCerts, some DirContents.newCerts⟩ = out →
      (out.2 = none → out.1.target = some DirContents.newCerts)
      ∧ (out.1.target = some DirContents.oldCerts →
          env.mkdirSslPathOk = false ∨ env.removeTargetOk = false)
      ∧ (out.2.isSome = true → env.mkdirSslPathOk = true →
          env.removeTargetOk = true →
          out.1.target = none ∨ out.1.target = some DirContents.halfCopied
          ∨ out.1.target = some DirContents.newCerts))
    ∧ ((deployToRustFS renv target0).2 = none →
        (deployToRustFS renv target0).1 = some RustFSContents.certAndKey)
    ∧ (renv.removeTargetOk = true → renv.mkdirTargetOk = true →
        renv.copyCertOk = true → renv.copyKeyOk = false →
        (deployToRustFS renv target0).1 = some RustFSContents.certOnly) := by
  refine ⟨?_, ?_, ?_⟩
  · intro out hout
    subst hout
    obtain ⟨mk, rm, rn, cp, rs⟩ := env
    cases mk <;> cases rm <;> cases rn <;> cases cp <;> cases rs <;>
      simp [moveCertificates, moveInstall]
  · intro hnone
    obtain ⟨rm, mk, cc, ck⟩ := renv
    cases target0 <;> cases rm <;> cases mk <;> cases cc <;> cases ck <;>
      simp [deployToRustFS, deployToRustFS.deployToRustFSInstall] at hnone ⊢
  · intro h1 h2 h3 h4
    cases target0 <;>
      simp [deployToRustFS, deployToRustFS.deployToRustFSInstall, h1, h2, h3, h4]

theorem moveCertificates_delete_first_spec_witness :
    (moveCertificates ⟨true, true, RenameOutcome.renamed, true, true⟩
        ⟨some DirContents.oldCerts, some DirContents.newCerts⟩).1.target
      = some DirContents.newCerts
    ∧ (deployToRustFS ⟨true, true, true, false⟩
        (some RustFSContents.oldCerts)).1 = some RustFSContents.certOnly :=
  ⟨((moveCertificates_delete_first_spec
        ⟨true, true, RenameOutcome.renamed, true, true⟩
        ⟨true, true, true, false⟩ (some RustFSContents.oldCerts)).1
      _ rfl).1 rfl,
    (moveCertificates_delete_first_spec
        ⟨true, true, RenameOutcome.renamed, true, true⟩
        ⟨true, true, true, false⟩ (some RustFSContents.oldCerts)).2.2
      rfl rfl rfl rfl⟩

/-! ## Dispatcher reply frames (part: handleConnect, execute_busines.go,
part: handleGetProvider)

A frame appears in the result list exactly when the handler hands it to
`stream.Send`; the `Option String` component is the error value the
handler returns.  The outcome of each provider-SDK call is supplied in
an environment record. -/

/-- `config.Version`. -/
def configVersion : String := "v0.4.1"

/-- `ExecuteBusinesRequest_RequestResult`. -/
inductive RequestResult
  | success
  | failed
  | notSupported
deriving DecidableEq

/-- The `ExecuteBusinesType` values the dispatcher distinguishes. -/
inductive ExecuteBusinesType
  | uploadCert
  | ansslCliCert
  | ansslCliApacheCert
  | ansslCliRustfsCert
  | otherType
deriving DecidableEq

/-- The payload variants a reply frame can carry. -/
inductive Payload
  | connectReply (provider : String) (success : Bool)
  | executeBusinesReply (result : RequestResult)
  | getProviderReply (providers : List (String × String))
deriving DecidableEq

/-- An outbound `NotifyRequest` frame. -/
structure NotifyRequest where
  accessKey : String
  clientId : String
  version : String
  requestId : String
  data : Payload
deriving DecidableEq

/-- The identity fields of the client. -/
structure ClientIdent where
  accessKey : String
  clientId : String
deriving DecidableEq

/-- Outcomes of the provider calls `handleConnect` can make. -/
structure ConnectEnv where
  aliyunConfigured : Bool
  aliyunNew : Except String Unit
  aliyunTest : Except String Bool
  qiniuConfigured : Bool
  qiniuTest : Except String Bool

/-- The single reply frame `handleConnect` builds for `stream.Send`. -/
def connectReplyFrame (c : ClientIdent) (requestId provider : String)
    (success : Bool) : List NotifyRequest :=
  [⟨c.accessKey, c.clientId, configVersion, requestId,
    Payload.connectReply provider success⟩]

/-- `Client.handleConnect`: switch on the provider name; a missing
provider configuration only logs and falls through to the reply with
`success = false`, but an error from `aliyun.New` or from either
`TestConnection` makes the handler return that error before any reply
frame reaches `stream.Send`. -/
def handleConnect (c : ClientIdent) (env : ConnectEnv)
    (requestId provider : String) : List NotifyRequest × Option String :=
  if provider = "ansslCli" then (connectReplyFrame c requestId provider true, none)
  else if provider = "aliyun" then
    if env.aliyunConfigured = false then
      (connectReplyFrame c requestId provider false, none)
    else
      match env.aliyunNew with
      | Except.error e => ([], some e)
      | Except.ok _ =>
        match env.aliyunTest with
        | Except.error e => ([], some e)
        | Except.ok b => (connectReplyFrame c requestId provider b, none)
  else if provider = "cloudTencent" then
    (connectReplyFrame c requestId provider false, none)
  else if provider = "qiniu" then
    if env.qiniuConfigured = false then
      (connectReplyFrame c requestId provider false, none)
    else
      match env.qiniuTest with
      | Except.error e => ([], some e)
      | Except.ok b => (connectReplyFrame c requestId provider b, none)
  else (connectReplyFrame c requestId provider false, none)

/-- Whether `handleConnect` takes one of the early-return error paths
(provider construction or connection test failed). -/
def connectTestErrorPath (env : ConnectEnv) (provider : String) : Bool :=
  if provider = "ansslCli" then false
  else if provider = "aliyun" then
    env.aliyunConfigured &&
      (match env.aliyunNew with
       | Except.error _ => true
       | Except.ok _ =>
         match env.aliyunTest with
         | Except.error _ => true
         | Except.ok _ => false)
  else if provider = "cloudTencent" then false
  else if provider = "qiniu" then
    env.qiniuConfigured &&
      (match env.qiniuTest with
       | Except.error _ => true
       | Except.ok _ => false)
  else false

/-- The `ExecuteBusinesResponse` payload fields the dispatcher reads. -/
structure ExecuteBusinesResponse where
  provider : String
  executeBusinesType : ExecuteBusinesType
  domain : String
  url : String
  cert : String
  key : String
deriving DecidableEq

/-- Outcomes of the deployment and upload calls `executeBusines` makes. -/
structure BusinessEnv where
  nginxDeployOk : Bool
  apacheDeployOk : Bool
  rustfsDeployOk : Bool
  providerHandlerOk : Bool
  uploadOk : Bool
deriving DecidableEq

/-- The reply frame `sendExecuteBusinesResponse` builds. -/
def execReplyFrame (c : ClientIdent) (requestId : String)
    (result : RequestResult) : NotifyRequest :=
  ⟨c.accessKey, c.clientId, configVersion, requestId,
    Payload.executeBusinesReply result⟩

/-- `Client.handleCertificateProvider`: only the upload action is
supported; a handler-construction or upload failure yields FAILED. -/
def handleCertificateProvider (benv : BusinessEnv)
    (t : ExecuteBusinesType) : RequestResult :=
  if t ≠ ExecuteBusinesType.uploadCert then RequestResult.notSupported
  else if benv.providerHandlerOk = false then RequestResult.failed
  else if benv.uploadOk = false then RequestResult.failed
  else RequestResult.success

/-- `Client.executeBusines`: reject an empty domain with FAILED, else
dispatch on the provider and business type; a reply frame is built and
sent on every path. -/
def executeBusines (c : ClientIdent) (benv : BusinessEnv) (requestId : String)
    (resp : ExecuteBusinesResponse) : List NotifyRequest :=
  if resp.domain = "" then [execReplyFrame c requestId RequestResult.failed]
  else
    let result :=
      if resp.provider = "ansslCli" then
        match resp.executeBusinesType with
        | ExecuteBusinesType.ansslCliCert =>
          if benv.nginxDeployOk then RequestResult.success else RequestResult.failed
        | ExecuteBusinesType.ansslCliApacheCert =>
          if benv.apacheDeployOk then RequestResult.success else RequestResult.failed
        | ExecuteBusinesType.ansslCliRustfsCert =>
          if benv.rustfsDeployOk then RequestResult.success else RequestResult.failed
        | _ => RequestResult.notSupported
      else if resp.provider = "aliyun" ∨ resp.provider = "qiniu" then
        handleCertificateProvider benv resp.executeBusinesType
      else RequestResult.notSupported
    [execReplyFrame c requestId result]

/-- `Client.handleGetProvider`: one reply frame listing the configured
providers; the struct literal in the source sets no `Version`, so the
frame carries the proto zero value `""` there. -/
def handleGetProvider (c : ClientIdent) (cfgProviders : List (String × String))
    (requestId : String) : List NotifyRequest :=
  [⟨c.accessKey, c.clientId, "", requestId,
    Payload.getProviderReply cfgProviders⟩]

theorem handleConnect_frames_characterization (c : ClientIdent)
    (env : ConnectEnv) (requestId provider : String) :
    (connectTestErrorPath env provider = true
      ∧ (handleConnect c env requestId provider).1 = [])
    ∨ (∃ b, connectTestErrorPath env provider = false
        ∧ (handleConnect c env requestId provider).1 =
          [⟨c.accessKey, c.clientId, configVersion, requestId,
            Payload.connectReply provider b⟩]) := by
  by_cases h1 : provider = "ansslCli"
  · exact Or.inr ⟨true, by simp [connectTestErrorPath, h1],
      by simp [handleConnect, h1, connectReplyFrame]⟩
  by_cases h2 : provider = "aliyun"
  · cases hconf : env.aliyunConfigured with
    | false =>
      exact Or.inr ⟨false, by simp [connectTestErrorPath, h1, h2, hconf],
        by simp [handleConnect, h1, h2, hconf, connectReplyFrame]⟩
    | true =>
      cases hnew : env.aliyunNew with
      | error e =>
        exact Or.inl ⟨by simp [connectTestErrorPath, h1, h2, hconf, hnew],
          by simp [handleConnect, h1, h2, hconf, hnew]⟩
      | ok u =>
        cases htest : env.aliyunTest with
        | error e =>
          exact Or.inl ⟨by simp [connectTestErrorPath, h1, h2, hconf, hnew, htest],
            by simp [handleConnect, h1, h2, hconf, hnew, htest]⟩
        | ok b =>
          exact Or.inr ⟨b,
            by simp [connectTestErrorPath, h1, h2, hconf, hnew, htest],
            by simp [handleConnect, h1, h2, hconf, hnew, htest, connectReplyFrame]⟩
  by_cases h3 : provider = "cloudTencent"
  · exact Or.inr ⟨false, by simp [connectTestErrorPath, h1, h2, h3],
      by simp [handleConnect, h1, h2, h3, connectReplyFrame]⟩
  by_cases h4 : provider = "qiniu"
  · cases hconf : env.qiniuConfigured with
    | false =>
      exact Or.inr ⟨false, by simp [connectTestErrorPath, h1, h2, h3, h4, hconf],
        by simp [handleConnect, h1, h2, h3, h4, hconf, connectReplyFrame]⟩
    | true =>
      cases htest : env.qiniuTest with
      | error e =>
        exact Or.inl ⟨by simp [connectTestErrorPath, h1, h2, h3, h4, hconf, htest],
          by simp [handleConnect, h1, h2, h3, h4, hconf, htest]⟩
      | ok b =>
        exact Or.inr ⟨b,
          by simp [connectTestErrorPath, h1, h2, h3, h4, hconf, htest],
          by simp [handleConnect, h1, h2, h3, h4, hconf, htest, connectReplyFrame]⟩
  · exact Or.inr ⟨false, by simp [connectTestErrorPath, h1, h2, h3, h4],
      by simp [handleConnect, h1, h2, h3, h4, connectReplyFrame]⟩

/-- C1 counterexample: a CONNECT request with a non-empty `requestId`
for the configured aliyun provider whose client construction fails
makes `handleConnect` return the error without emitting any reply
frame — the request is answered zero times, not exactly once. -/
theorem handleConnect_provider_error_drops_reply :
    (handleConnect ⟨"ak", "cid"⟩
        ⟨true, Except.error "初始化客户端失败", Except.ok true, true, Except.ok true⟩
        "req-1" "aliyun").1 = []
    ∧ ("req-1" : String) ≠ "" := by
  exact ⟨rfl, by decide⟩

/-- C1 amended: the EXECUTE_BUSINESS and GET_PROVIDER handlers emit
exactly one reply frame carrying the request's `requestId` on every
execution path; the CONNECT handler does so on every path except when
aliyun provider construction or an aliyun/qiniu `TestConnection` call
returns an error, in which case it returns that error and emits no
reply at all. -/
theorem handler_reply_exactly_once (c : ClientIdent) (env : ConnectEnv)
    (benv : BusinessEnv) (cfgProviders : List (String × String))
    (requestId provider : String) (resp : ExecuteBusinesResponse) :
    (if connectTestErrorPath env provider = true then
        (handleConnect c env requestId provider).1 = []
      else
        (handleConnect c env requestId provider).1.map NotifyRequest.requestId
          = [requestId])
    ∧ (executeBusines c benv requestId resp).map NotifyRequest.requestId
        = [requestId]
    ∧ (handleGetProvider c cfgProviders requestId).map NotifyRequest.requestId
        = [requestId] := by
  refine ⟨?_, ?_, ?_⟩
  · rcases handleConnect_frames_characterization c env requestId provider with
      ⟨herr, hframes⟩ | ⟨b, herr, hframes⟩
    · simp [herr, hframes]
    · simp [herr, hframes]
  · by_cases hd : resp.domain = "" <;>
      simp [executeBusines, hd, execReplyFrame]
  · simp [handleGetProvider]

/-- C8 counterexample: the single reply frame of the GET_PROVIDER
handler carries the proto zero value `""` in its version field instead
of the agent version, so not all three identity fields are present. -/
theorem getProvider_reply_omits_version :
    ((handleGetProvider ⟨"ak", "cid"⟩ [("aliyun", "备注")] "req-2").map
        NotifyRequest.version) = [""]
    ∧ ("" : String) ≠ configVersion := by
  exact ⟨rfl, by decide⟩

/-- C8 amended: CONNECT and EXECUTE_BUSINESS replies carry the original
`requestId`, all three identity fields (`accessKey`, `clientId`,
`version`) and the payload case of their request type; the GET_PROVIDER
reply carries the `requestId`, `accessKey` and `clientId` and its
payload case, but its version field is the empty string rather than the
agent version. -/
theorem reply_frames_carry_identity (c : ClientIdent) (env : ConnectEnv)
    (benv : BusinessEnv) (cfgProviders : List (String × String))
    (requestId provider : String) (resp : ExecuteBusinesResponse) :
    ((handleConnect c env requestId provider).1 = []
      ∨ ∃ b, (handleConnect c env requestId provider).1 =
          [⟨c.accessKey, c.clientId, configVersion, requestId,
            Payload.connectReply provider b⟩])
    ∧ (∃ r, executeBusines c benv requestId resp =
        [⟨c.accessKey, c.clientId, configVersion, requestId,
          Payload.executeBusinesReply r⟩])
    ∧ handleGetProvider c cfgProviders requestId =
        [⟨c.accessKey, c.clientId, "", requestId,
          Payload.getProviderReply cfgProviders⟩] := by
  refine ⟨?_, ?_, rfl⟩
  · rcases handleConnect_frames_characterization c env requestId provider with
      ⟨_, hframes⟩ | ⟨b, _, hframes⟩
    · exact Or.inl hframes
    · exact Or.inr ⟨b, hframes⟩
  · unfold executeBusines
    by_cases hd : resp.domain = ""
    · exact ⟨RequestResult.failed, by simp [hd, execReplyFrame]⟩
    · refine ⟨if resp.provider = "ansslCli" then
          match resp.executeBusinesType with
          | ExecuteBusinesType.ansslCliCert =>
            if benv.nginxDeployOk = true then RequestResult.success
            else RequestResult.failed
          | ExecuteBusinesType.ansslCliApacheCert =>
            if benv.apacheDeployOk = true then RequestResult.success
            else RequestResult.failed
          | ExecuteBusinesType.ansslCliRustfsCert =>
            if benv.rustfsDeployOk = true then RequestResult.success
            else RequestResult.failed
          | _ => RequestResult.notSupported
        else if resp.provider = "aliyun" ∨ resp.provider = "qiniu" then
          handleCertificateProvider benv resp.executeBusinesType
        else RequestResult.notSupported, ?_⟩
      simp [hd, execReplyFrame]

/-! ## Aliyun ESA fallback certificate name (part:
buildUniqueESACertificateName, sanitizeESACertificateNameBase)

`unicode.IsLetter`/`unicode.IsDigit` are modelled by the ASCII
classifiers, which agree with Go on every ASCII input; `time.Time` is a
record of broken-down UTC fields, `Format("20060102150405")` is the
zero-padded concatenation of those fields, and `%06d` pads the decimal
representation on the left with zeros up to six characters. -/

/-- The characters `sanitizeESACertificateNameBase` keeps. -/
def esaNameAllowedChar (c : Char) : Bool :=
  c.isAlpha || c.isDigit || c = '.' || c = '_' || c = '-'

/-- The builder loop of `sanitizeESACertificateNameBase`: keep allowed
characters, collapse every run of other characters to a single `-`. -/
def collapseDisallowedRuns : List Char → Bool → List Char
  | [], _ => []
  | c :: rest, lastDash =>
    if esaNameAllowedChar c then c :: collapseDisallowedRuns rest false
    else if lastDash then collapseDisallowedRuns rest lastDash
    else '-' :: collapseDisallowedRuns rest true

/-- `strings.Trim`: drop characters of `set` from both ends. -/
def trimCharSet (set : List Char) (cs : List Char) : List Char :=
  ((cs.dropWhile (fun c => set.contains c)).reverse.dropWhile
    (fun c => set.contains c)).reverse

/-- `strings.TrimSpace`: drop whitespace from both ends. -/
def trimSpaceChars (cs : List Char) : List Char :=
  ((cs.dropWhile Char.isWhitespace).reverse.dropWhile Char.isWhitespace).reverse

/-- `sanitizeESACertificateNameBase`: trim whitespace, collapse runs of
disallowed characters to `-`, then strip leading and trailing `-`, `_`,
`.` and surrounding whitespace. -/
def sanitizeESACertificateNameBase (raw : String) : String :=
  let trimmed := String.mk (trimSpaceChars raw.data)
  if trimmed = "" then ""
  else
    let built := collapseDisallowedRuns trimmed.data false
    let result := trimCharSet ['-', '_', '.'] built
    String.mk (trimSpaceChars result)

/-- The sanitizer exactly as the specification sentence describes it —
keep letters, digits, `.`, `_`, `-` and collapse every run of other
characters to a single `-` — with no trimming step. -/
def sanitizeNameBaseAsSpecified (raw : String) : String :=
  String.mk (collapseDisallowedRuns raw.data false)

/-- A UTC wall-clock instant, broken down as Go's `Format` reads it. -/
structure UTCTime where
  year : Nat
  month : Nat
  day : Nat
  hour : Nat
  minute : Nat
  second : Nat
  nanosecond : Nat
deriving DecidableEq

/-- Left-pad the decimal representation with zeros up to `width`. -/
def padLeftZeros (width n : Nat) : String :=
  if (Nat.repr n).length < width then
    String.mk (List.replicate (width - (Nat.repr n).length) '0') ++ Nat.repr n
  else Nat.repr n

/-- `now.UTC().Format("20060102150405")`. -/
def formatYYYYMMDDHHMMSS (t : UTCTime) : String :=
  padLeftZeros 4 t.year ++ padLeftZeros 2 t.month ++ padLeftZeros 2 t.day
    ++ padLeftZeros 2 t.hour ++ padLeftZeros 2 t.minute ++ padLeftZeros 2 t.second

/-- `buildUniqueESACertificateName`: prefer the sanitized remark, then
the sanitized domain, then `anssl`; truncate to 12 runes; append the
UTC timestamp and the microseconds within the second. -/
def buildUniqueESACertificateName (name domain : String) (now : UTCTime) : String :=
  let domainBase := sanitizeESACertificateNameBase domain
  let baseName1 := if domainBase ≠ "" then domainBase else "anssl"
  let remarkBase := sanitizeESACertificateNameBase name
  let baseName2 := if remarkBase ≠ "" then remarkBase else baseName1
  let baseName :=
    if baseName2.data.length > 12 then String.mk (baseName2.data.take 12)
    else baseName2
  let timeSuffix := formatYYYYMMDDHHMMSS now
  let nanoSuffix := now.nanosecond / 1000
  baseName ++ "-" ++ timeSuffix ++ "-" ++ padLeftZeros 6 nanoSuffix

/-- The base-name selection and truncation stage of
`buildUniqueESACertificateName`. -/
def esaFallbackBase (name domain : String) : String :=
  let domainBase := sanitizeESACertificateNameBase domain
  let baseName1 := if domainBase ≠ "" then domainBase else "anssl"
  let remarkBase := sanitizeESACertificateNameBase name
  let baseName2 := if remarkBase ≠ "" then remarkBase else baseName1
  if baseName2.data.length > 12 then String.mk (baseName2.data.take 12)
  else baseName2

theorem mem_of_mem_dropWhileChars {p : Char → Bool} {l : List Char} {x : Char}
    (h : x ∈ l.dropWhile p) : x ∈ l := by
  induction l with
  | nil => simp at h
  | cons c rest ih =>
    by_cases hc : p c
    · simp only [List.dropWhile, hc] at h
      exact List.mem_cons_of_mem c (ih h)
    · simpa [List.dropWhile, hc] using h

theorem mem_of_mem_trimCharSet {set : List Char} {cs : List Char} {x : Char}
    (h : x ∈ trimCharSet set cs) : x ∈ cs := by
  unfold trimCharSet at h
  rw [List.mem_reverse] at h
  have h2 := mem_of_mem_dropWhileChars h
  rw [List.mem_reverse] at h2
  exact mem_of_mem_dropWhileChars h2

theorem mem_of_mem_trimSpaceChars {cs : List Char} {x : Char}
    (h : x ∈ trimSpaceChars cs) : x ∈ cs := by
  unfold trimSpaceChars at h
  rw [List.mem_reverse] at h
  have h2 := mem_of_mem_dropWhileChars h
  rw [List.mem_reverse] at h2
  exact mem_of_mem_dropWhileChars h2

theorem collapseDisallowedRuns_chars (cs : List Char) (lastDash : Bool) :
    ∀ ch ∈ collapseDisallowedRuns cs lastDash, esaNameAllowedChar ch = true := by
  induction cs generalizing lastDash with
  | nil => intro ch hch; simp [collapseDisallowedRuns] at hch
  | cons c rest ih =>
    intro ch hch
    by_cases hc : esaNameAllowedChar c
    · simp only [collapseDisallowedRuns, hc, if_pos] at hch
      rcases List.mem_cons.mp hch with rfl | hch
      · exact hc
      · exact ih false ch hch
    · cases lastDash with
      | true =>
        simp only [collapseDisallowedRuns, hc] at hch
        simp at hch
        exact ih true ch hch
      | false =>
        simp only [collapseDisallowedRuns, hc] at hch
        simp at hch
        rcases hch with rfl | hch
        · decide
        · exact ih true ch hch

theorem sanitizeESACertificateNameBase_chars (raw : String) :
    ∀ ch ∈ (sanitizeESACertificateNameBase raw).data,
      esaNameAllowedChar ch = true := by
  intro ch hch
  simp only [sanitizeESACertificateNameBase] at hch
  by_cases he : String.mk (trimSpaceChars raw.data) = ""
  · rw [if_pos he] at hch
    have hnil : ("" : String).data = [] := rfl
    rw [hnil] at hch
    simp at hch
  · rw [if_neg he] at hch
    have h1 := mem_of_mem_trimSpaceChars hch
    have h2 := mem_of_mem_trimCharSet h1
    exact collapseDisallowedRuns_chars _ _ ch h2

/-- The candidate base before truncation: sanitized remark first, then
sanitized domain, then `anssl`. -/
def esaBaseCandidate (name domain : String) : String :=
  if sanitizeESACertificateNameBase name ≠ "" then
    sanitizeESACertificateNameBase name
  else if sanitizeESACertificateNameBase domain ≠ "" then
    sanitizeESACertificateNameBase domain
  else "anssl"

theorem esaFallbackBase_eq_candidate (name domain : String) :
    esaFallbackBase name domain =
      if (esaBaseCandidate name domain).data.length > 12 then
        String.mk ((esaBaseCandidate name domain).data.take 12)
      else esaBaseCandidate name domain := rfl

theorem esaBaseCandidate_chars (name domain : String) :
    ∀ ch ∈ (esaBaseCandidate name domain).data, esaNameAllowedChar ch = true := by
  unfold esaBaseCandidate
  split_ifs with h1 h2
  · exact sanitizeESACertificateNameBase_chars name
  · exact sanitizeESACertificateNameBase_chars domain
  · intro ch hch
    have hdata : ("anssl" : String).data = ['a', 'n', 's', 's', 'l'] := rfl
    rw [hdata] at hch
    fin_cases hch <;> decide

theorem padLeftZeros_length (width n : Nat) (hw : 0 < width)
    (hn : n < 10 ^ width) : (padLeftZeros width n).length = width := by
  have hle := Nat.repr_length n width hw hn
  unfold padLeftZeros
  by_cases hlt : (Nat.repr n).length < width
  · rw [if_pos hlt, String.length_append]
    have hrep : (String.mk (List.replicate (width - (Nat.repr n).length) '0')).length
        = width - (Nat.repr n).length := by
      have hmk : (String.mk (List.replicate (width - (Nat.repr n).length) '0')).length
          = (List.replicate (width - (Nat.repr n).length) '0').length := rfl
      rw [hmk, List.length_replicate]
    omega
  · rw [if_neg hlt]
    omega

/-- C7 counterexample: on the input `_a_` the implemented sanitizer also
strips the leading and trailing underscores, so its result differs from
the keep-and-collapse sanitizer the claim describes. -/
theorem esaSanitizer_trims_edges :
    sanitizeESACertificateNameBase "_a_" = "a"
    ∧ sanitizeNameBaseAsSpecified "_a_" = "_a_"
    ∧ sanitizeESACertificateNameBase "_a_" ≠ sanitizeNameBaseAsSpecified "_a_" :=
  ⟨rfl, rfl, by decide⟩

/-- C7 amended: the fallback name is the sanitized base truncated to at
most 12 runes, a `-`, the UTC timestamp `yyyymmddHHMMSS`, a `-`, and
the microseconds within the second zero-padded to 6 digits; the
sanitizer keeps only letters, digits, `.`, `_`, `-`, collapses every
run of other characters to a single `-`, and additionally strips
leading and trailing `-`, `_`, `.` characters (and surrounding
whitespace). -/
theorem buildUniqueESACertificateName_spec (name domain : String)
    (now : UTCTime) (hy : now.year ≤ 9999) (hmo : now.month ≤ 12)
    (hd : now.day ≤ 31) (hh : now.hour ≤ 23) (hmi : now.minute ≤ 59)
    (hs : now.second ≤ 59) (hns : now.nanosecond < 1000000000) :
    buildUniqueESACertificateName name domain now =
      esaFallbackBase name domain ++ "-" ++ formatYYYYMMDDHHMMSS now
        ++ "-" ++ padLeftZeros 6 (now.nanosecond / 1000)
    ∧ (esaFallbackBase name domain).data.length ≤ 12
    ∧ (∀ ch ∈ (esaFallbackBase name domain).data, esaNameAllowedChar ch = true)
    ∧ (formatYYYYMMDDHHMMSS now).length = 14
    ∧ (padLeftZeros 6 (now.nanosecond / 1000)).length = 6 := by
  refine ⟨rfl, ?_, ?_, ?_, ?_⟩
  · rw [esaFallbackBase_eq_candidate]
    split_ifs with h12
    · simp [List.length_take]
    · omega
  · rw [esaFallbackBase_eq_candidate]
    split_ifs with h12
    · intro ch hch
      exact esaBaseCandidate_chars name domain ch (List.mem_of_mem_take hch)
    · exact esaBaseCandidate_chars name domain
  · unfold formatYYYYMMDDHHMMSS
    rw [String.length_append, String.length_append, String.length_append,
      String.length_append, String.length_append]
    rw [padLeftZeros_length 4 now.year (by norm_num) (by norm_num; omega),
      padLeftZeros_length 2 now.month (by norm_num) (by norm_num; omega),
      padLeftZeros_length 2 now.day (by norm_num) (by norm_num; omega),
      padLeftZeros_length 2 now.hour (by norm_num) (by norm_num; omega),
      padLeftZeros_length 2 now.minute (by norm_num) (by norm_num; omega),
      padLeftZeros_length 2 now.second (by norm_num) (by norm_num; omega)]
  · exact padLeftZeros_length 6 (now.nanosecond / 1000) (by norm_num)
      (by norm_num; omega)

theorem buildUniqueESACertificateName_spec_witness :
    (esaFallbackBase "cert.example.com" "www.example.com").data.length ≤ 12
    ∧ (formatYYYYMMDDHHMMSS ⟨2025, 10, 11, 12, 30, 45, 123456789⟩).length = 14 :=
  ⟨(buildUniqueESACertificateName_spec "cert.example.com" "www.example.com"
      ⟨2025, 10, 11, 12, 30, 45, 123456789⟩ (by decide) (by decide) (by decide)
      (by decide) (by decide) (by decide) (by decide)).2.1,
    (buildUniqueESACertificateName_spec "cert.example.com" "www.example.com"
      ⟨2025, 10, 11, 12, 30, 45, 123456789⟩ (by decide) (by decide) (by decide)
      (by decide) (by decide) (by decide) (by decide)).2.2.2.1⟩

/-! ## Stable client id (internal/system/info.go)

`sha256.Sum256` and `hex.EncodeToString` are implemented over `Nat`
byte and word values (words reduced mod `2 ^ 32`); strings are hashed
through their UTF-8 bytes as Go's `[]byte(s)` conversion does. -/

/-- UTF-8 encoding of one code point. -/
def utf8EncodeCharBytes (c : Char) : List Nat :=
  let n := c.toNat
  if n < 128 then [n]
  else if n < 2048 then [192 + n / 64, 128 + n % 64]
  else if n < 65536 then [224 + n / 4096, 128 + n / 64 % 64, 128 + n % 64]
  else [240 + n / 262144, 128 + n / 4096 % 64, 128 + n / 64 % 64, 128 + n % 64]

/-- The UTF-8 bytes of a string. -/
def utf8Bytes (s : String) : List Nat :=
  (s.data.map utf8EncodeCharBytes).flatten

/-- Reduce to a 32-bit word. -/
def w32 (n : Nat) : Nat := n % 4294967296

/-- 32-bit rotate right. -/
def rotr32 (x n : Nat) : Nat := w32 ((x >>> n) + x % 2 ^ n * 2 ^ (32 - n))

/-- 32-bit complement. -/
def not32 (a : Nat) : Nat := a ^^^ 4294967295

/-- SHA-256 `Ch`. -/
def chFn (x y z : Nat) : Nat := (x &&& y) ^^^ (not32 x &&& z)

/-- SHA-256 `Maj`. -/
def majFn (x y z : Nat) : Nat := (x &&& y) ^^^ (x &&& z) ^^^ (y &&& z)

/-- SHA-256 `Σ0`. -/
def bigSigma0 (x : Nat) : Nat := rotr32 x 2 ^^^ rotr32 x 13 ^^^ rotr32 x 22

/-- SHA-256 `Σ1`. -/
def bigSigma1 (x : Nat) : Nat := rotr32 x 6 ^^^ rotr32 x 11 ^^^ rotr32 x 25

/-- SHA-256 `σ0`. -/
def smallSigma0 (x : Nat) : Nat := rotr32 x 7 ^^^ rotr32 x 18 ^^^ (x >>> 3)

/-- SHA-256 `σ1`. -/
def smallSigma1 (x : Nat) : Nat := rotr32 x 17 ^^^ rotr32 x 19 ^^^ (x >>> 10)

/-- The 64 SHA-256 round constants. -/
def sha256K : List Nat :=
  [1116352408, 1899447441, 3049323471, 3921009573, 961987163,
   1508970993, 2453635748, 2870763221, 3624381080, 310598401,
   607225278, 1426881987, 1925078388, 2162078206, 2614888103,
   3248222580, 3835390401, 4022224774, 264347078, 604807628,
   770255983, 1249150122, 1555081692, 1996064986, 2554220882,
   2821834349, 2952996808, 3210313671, 3336571891, 3584528711,
   113926993, 338241895, 666307205, 773529912, 1294757372,
   1396182291, 1695183700, 1986661051, 2177026350, 2456956037,
   2730485921, 2820302411, 3259730800, 3345764771, 3516065817,
   3600352804, 4094571909, 275423344, 430227734, 506948616,
   659060556, 883997877, 958139571, 1322822218, 1537002063,
   1747873779, 1955562222, 2024104815, 2227730452, 2361852424,
   2428436474, 2756734187, 3204031479, 3329325298]

/-- The SHA-256 working state and chaining value. -/
structure Sha256Digest where
  h0 : Nat
  h1 : Nat
  h2 : Nat
  h3 : Nat
  h4 : Nat
  h5 : Nat
  h6 : Nat
  h7 : Nat
deriving DecidableEq

/-- The SHA-256 initial chaining value. -/
def sha256InitDigest : Sha256Digest :=
  ⟨1779033703, 3144134277, 1013904242,
   2773480762, 1359893119, 2600822924,
   528734635, 1541459225⟩

/-- Big-endian bytes of `n`, `count` bytes long. -/
def beBytes : Nat → Nat → List Nat
  | 0, _ => []
  | count + 1, n => beBytes count (n / 256) ++ [n % 256]

/-- SHA-256 message padding: `0x80`, zeros to 56 mod 64, then the
message bit length as 8 big-endian bytes. -/
def sha256Pad (msg : List Nat) : List Nat :=
  msg ++ [128] ++ List.replicate ((119 - msg.length % 64) % 64) 0
    ++ beBytes 8 (msg.length * 8)

/-- Group bytes into blocks of 64. -/
def chunks64 (l : List Nat) : List (List Nat) :=
  if h : l = [] then []
  else l.take 64 :: chunks64 (l.drop 64)
termination_by l.length
decreasing_by
  have hpos : 0 < l.length := List.length_pos.mpr h
  simp [List.length_drop]
  omega

/-- Big-endian 32-bit words from bytes. -/
def bytesToWords : List Nat → List Nat
  | b0 :: b1 :: b2 :: b3 :: rest =>
    (((b0 * 256 + b1) * 256 + b2) * 256 + b3) :: bytesToWords rest
  | _ => []

/-- Append the next word of the SHA-256 message schedule. -/
def sha256ExtendStep (w : List Nat) : List Nat :=
  w ++ [w32 (smallSigma1 (w.getD (w.length - 2) 0) + w.getD (w.length - 7) 0
    + smallSigma0 (w.getD (w.length - 15) 0) + w.getD (w.length - 16) 0)]

/-- Iterate a function. -/
def iterN {α : Type} (f : α → α) : Nat → α → α
  | 0, a => a
  | k + 1, a => iterN f k (f a)

/-- The 64-word SHA-256 message schedule of a block. -/
def sha256Schedule (w16 : List Nat) : List Nat := iterN sha256ExtendStep 48 w16

/-- One SHA-256 round. -/
def sha256Round (t : Sha256Digest) (kw : Nat × Nat) : Sha256Digest :=
  let t1 := w32 (t.h7 + bigSigma1 t.h4 + chFn t.h4 t.h5 t.h6 + kw.1 + kw.2)
  let t2 := w32 (bigSigma0 t.h0 + majFn t.h0 t.h1 t.h2)
  ⟨w32 (t1 + t2), t.h0, t.h1, t.h2, w32 (t.h3 + t1), t.h4, t.h5, t.h6⟩

/-- Compress one 64-byte block into the chaining value. -/
def sha256Compress (st : Sha256Digest) (block : List Nat) : Sha256Digest :=
  let w := sha256Schedule (bytesToWords block)
  let f := (sha256K.zip w).foldl sha256Round st
  ⟨w32 (st.h0 + f.h0), w32 (st.h1 + f.h1), w32 (st.h2 + f.h2),
   w32 (st.h3 + f.h3), w32 (st.h4 + f.h4), w32 (st.h5 + f.h5),
   w32 (st.h6 + f.h6), w32 (st.h7 + f.h7)⟩

/-- `sha256.Sum256` over a byte list. -/
def sha256Digest (msg : List Nat) : Sha256Digest :=
  (chunks64 (sha256Pad msg)).foldl sha256Compress sha256InitDigest

/-- The lowercase hex alphabet of `encoding/hex`. -/
def hexTable : List Char := "0123456789abcdef".data

/-- One lowercase hex digit. -/
def hexDigitChar (n : Nat) : Char := hexTable.getD n '0'

/-- Lowercase hex characters of one 32-bit word, byte by byte. -/
def word32HexChars (n : Nat) : List Char :=
  ((beBytes 4 n).map
    (fun b => [hexDigitChar (b / 16), hexDigitChar (b % 16)])).flatten

/-- `hex.EncodeToString` of a digest. -/
def sha256DigestHex (d : Sha256Digest) : List Char :=
  word32HexChars d.h0 ++ word32HexChars d.h1 ++ word32HexChars d.h2
    ++ word32HexChars d.h3 ++ word32HexChars d.h4 ++ word32HexChars d.h5
    ++ word32HexChars d.h6 ++ word32HexChars d.h7

/-- `hex.EncodeToString(sha256.Sum256([]byte(s)))`, lowercase. -/
def sha256hex (s : String) : String :=
  String.mk (sha256DigestHex (sha256Digest (utf8Bytes s)))

/-- `trimNL`: drop one trailing newline or carriage return. -/
def trimNL (s : String) : String :=
  match s.data.getLast? with
  | some c => if c = '\n' ∨ c = '\r' then String.mk s.data.dropLast else s
  | none => s

/-- `readCachedID`: the cache file content, one trailing newline
stripped; any read error yields the empty string. -/
def readCachedID (fileContent : Option String) : String :=
  match fileContent with
  | none => ""
  | some b => trimNL b

/-- The inputs `GetUniqueClientID` consumes. -/
structure IdentEnv where
  cachedFile : Option String
  os : String
  arch : String
  hostname : String
  hardwareId : String

/-- `GetUniqueClientID`: any non-empty cached value is returned as
read; otherwise the id is the lowercase hex SHA-256 of
`os|arch|hostname|hardwareToken`. -/
def getUniqueClientID (env : IdentEnv) : String :=
  if readCachedID env.cachedFile ≠ "" then readCachedID env.cachedFile
  else
    sha256hex (env.os ++ "|" ++ env.arch ++ "|" ++ env.hostname
      ++ "|" ++ env.hardwareId)

theorem getD_of_length_le {α : Type} (l : List α) (d : α) (n : Nat)
    (h : l.length ≤ n) : l.getD n d = d := by
  induction l generalizing n with
  | nil => simp [List.getD]
  | cons x rest ih =>
    cases n with
    | zero => simp at h
    | succ n =>
      simp only [List.getD] at *
      simpa using ih n (by simpa using h)

theorem hexDigitChar_mem (n : Nat) : hexDigitChar n ∈ hexTable := by
  by_cases h : n < 16
  · interval_cases n <;> decide
  · unfold hexDigitChar
    rw [getD_of_length_le hexTable '0' n (by rw [show hexTable.length = 16 from rfl]; omega)]
    decide

theorem beBytes_length (count n : Nat) : (beBytes count n).length = count := by
  induction count generalizing n with
  | zero => rfl
  | succ count ih => simp [beBytes, ih]

theorem hexPairs_length (l : List Nat) :
    ((l.map (fun b => [hexDigitChar (b / 16), hexDigitChar (b % 16)])).flatten).length
      = 2 * l.length := by
  induction l with
  | nil => rfl
  | cons b rest ih => simp [ih]; omega

theorem mem_hexPairs {l : List Nat} {ch : Char}
    (h : ch ∈ (l.map
      (fun b => [hexDigitChar (b / 16), hexDigitChar (b % 16)])).flatten) :
    ch ∈ hexTable := by
  induction l with
  | nil => simp at h
  | cons b rest ih =>
    simp only [List.map, List.flatten, List.mem_append, List.mem_cons] at h
    rcases h with (rfl | rfl | h) | h
    · exact hexDigitChar_mem _
    · exact hexDigitChar_mem _
    · simp at h
    · exact ih h

theorem word32HexChars_length (n : Nat) : (word32HexChars n).length = 8 := by
  unfold word32HexChars
  rw [hexPairs_length, beBytes_length]

theorem mem_word32HexChars {n : Nat} {ch : Char}
    (h : ch ∈ word32HexChars n) : ch ∈ hexTable := mem_hexPairs h

theorem sha256DigestHex_length (d : Sha256Digest) :
    (sha256DigestHex d).length = 64 := by
  unfold sha256DigestHex
  simp [word32HexChars_length]

theorem mem_sha256DigestHex {d : Sha256Digest} {ch : Char}
    (h : ch ∈ sha256DigestHex d) : ch ∈ hexTable := by
  unfold sha256DigestHex at h
  simp only [List.mem_append] at h
  rcases h with ((((((h | h) | h) | h) | h) | h) | h) | h <;>
    exact mem_word32HexChars h

/-- C6 counterexample: a corrupted cache value (three characters, not
hex) is returned as the client id unchanged — no corruption check runs
on read. -/
theorem corrupted_cached_id_returned_as_is :
    getUniqueClientID ⟨some "zzz\n", "linux", "amd64", "host", "mid:abc"⟩ = "zzz"
    ∧ ("zzz" : String).data.length ≠ 64
    ∧ ¬ (∀ ch ∈ ("zzz" : String).data, ch ∈ hexTable) := by
  refine ⟨rfl, by decide, by decide⟩

/-- C6 amended: with an empty cache the id is the lowercase hex SHA-256
of `os|arch|hostname|hardwareToken` (64 lowercase-hex characters, and
identical inputs always yield an identical id); but whenever the cache
read yields any non-empty value, that value is returned as-is — wrong
length or non-hex content is not detected. -/
theorem getUniqueClientID_spec (env env2 : IdentEnv) :
    (readCachedID env.cachedFile ≠ "" →
      getUniqueClientID env = readCachedID env.cachedFile)
    ∧ (readCachedID env.cachedFile = "" →
        getUniqueClientID env =
          sha256hex (env.os ++ "|" ++ env.arch ++ "|" ++ env.hostname
            ++ "|" ++ env.hardwareId)
        ∧ (getUniqueClientID env).data.length = 64
        ∧ ∀ ch ∈ (getUniqueClientID env).data, ch ∈ hexTable)
    ∧ (env.os = env2.os → env.arch = env2.arch → env.hostname = env2.hostname →
        env.hardwareId = env2.hardwareId → readCachedID env.cachedFile = "" →
        readCachedID env2.cachedFile = "" →
        getUniqueClientID env = getUniqueClientID env2) := by
  refine ⟨?_, ?_, ?_⟩
  · intro h
    simp [getUniqueClientID, h]
  · intro h
    have hval : getUniqueClientID env =
        sha256hex (env.os ++ "|" ++ env.arch ++ "|" ++ env.hostname
          ++ "|" ++ env.hardwareId) := by
      simp [getUniqueClientID, h]
    refine ⟨hval, ?_, ?_⟩
    · rw [hval]
      exact sha256DigestHex_length _
    · intro ch hch
      rw [hval] at hch
      exact mem_sha256DigestHex hch
  · intro h1 h2 h3 h4 h5 h6
    simp [getUniqueClientID, h1, h2, h3, h4, h5, h6]

theorem getUniqueClientID_spec_witness :
    getUniqueClientID ⟨some "abc\n", "linux", "amd64", "host", "mid:xyz"⟩ =
      readCachedID (some "abc\n") :=
  (getUniqueClientID_spec ⟨some "abc\n", "linux", "amd64", "host", "mid:xyz"⟩
      ⟨none, "", "", "", ""⟩).1 (by decide)
